import Mathlib

/-!
Verification of the morning-brief aggregation core.

This file gives a shallow embedding of the pure aggregation logic of the
repository: the Gmail message pipeline (`src/mcp-server/src/tools/gmail.ts`,
`getGmailMessagesTool.handler`: sender parsing, thread deduplication,
importance filtering, ranking) and the Notion task pipeline
(`src/mcp-server/lib/tools/notion.ts`, `getNotionTasks`: schema resolution,
query filter construction, page-to-task conversion, done filtering, relation
resolution).  Network calls are represented by explicit oracles
(`String → Option _`), JS `Map`s by insertion-ordered association lists, and
timestamps by integers.
-/

namespace MorningBrief

/-- JS `String.prototype.toLowerCase`, modelled characterwise. -/
def jsToLower (s : String) : String :=
  String.mk (s.data.map Char.toLower)

namespace Gmail

/-- A fetched Gmail message together with the metadata the handler keeps in
`messageMetadata` (`gmail.ts`, lines 99-114): the message id, `msg.threadId`,
the parsed sender address and the numeric `internalDate`. -/
structure Msg where
  id : String
  thread_id : Option String
  from_email : Option String
  internalDate : Nat
deriving Repr, DecidableEq

/-- The deduplication key `email.thread_id || mid` (`gmail.ts`, line 127):
JS `||` falls through to the message id when `thread_id` is `undefined`
or the empty string (both are falsy). -/
def groupKey (m : Msg) : String :=
  match m.thread_id with
  | some t => if t = "" then m.id else t
  | none => m.id

/-- The group key as the spec sentence words it: the `thread_id` itself
whenever one is present, the message id only when it is absent. -/
def specGroupKey (m : Msg) : String :=
  m.thread_id.getD m.id

/-- Lookup in an insertion-ordered association list (JS `Map.get`). -/
def findRep (k : String) : List (String × Msg) → Option Msg
  | [] => none
  | (k', m) :: rest => if k' = k then some m else findRep k rest

/-- JS `Map.set`: replace the value stored at `k` in place, or append a new
entry at the end when `k` is absent. -/
def mapSet (k : String) (m : Msg) : List (String × Msg) → List (String × Msg)
  | [] => [(k, m)]
  | (k', m') :: rest => if k' = k then (k, m) :: rest else (k', m') :: mapSet k m rest

/-- One iteration of the deduplication loop (`gmail.ts`, lines 125-134): the
incoming record replaces the stored representative of its group iff the group
is new or the incoming `internalDate` is strictly greater. -/
def dedupStep (acc : List (String × Msg)) (m : Msg) : List (String × Msg) :=
  match findRep (groupKey m) acc with
  | none => mapSet (groupKey m) m acc
  | some rep => if rep.internalDate < m.internalDate then mapSet (groupKey m) m acc else acc

/-- Thread deduplication (`gmail.ts`, lines 121-136): fold the fetch-ordered
records through `dedupStep` and return the surviving representatives
(`Array.from(threadToEmail.values())`, in key-insertion order). -/
def dedupe (msgs : List Msg) : List Msg :=
  (msgs.foldl dedupStep []).map Prod.snd

/-- Running representative of a single group: keep the stored record unless
the incoming one has a strictly greater `internalDate` (the same comparison
as `dedupStep`, restricted to one group). -/
def firstMaxAcc (acc : Option Msg) (m : Msg) : Option Msg :=
  match acc with
  | none => some m
  | some r => if r.internalDate < m.internalDate then some m else some r

/-- First record attaining the maximum `internalDate` of the list (ties keep
the earliest). -/
def firstMax (l : List Msg) : Option Msg :=
  l.foldl firstMaxAcc none

/-- Sender match used by the importance filter (`gmail.ts`, line 142):
the record has a `from_email` whose lower-casing is in the lower-cased
allow-list. -/
def matchesSender (senders : List String) (m : Msg) : Bool :=
  match m.from_email with
  | some a => (senders.map jsToLower).contains (jsToLower a)
  | none => false

/-- The importance filter (`gmail.ts`, lines 139-143): applied only when the
allow-list is non-empty, otherwise the intermediate `important` array stays
empty. -/
def importanceFilter (senders : List String) (msgs : List Msg) : List Msg :=
  if senders.length > 0 then msgs.filter (matchesSender senders) else []

/-- Fallback (`gmail.ts`, lines 145-148): when nothing survived the filter
(no match, or no allow-list), use the full deduplicated set. -/
def chooseImportant (senders : List String) (msgs : List Msg) : List Msg :=
  let important := importanceFilter senders msgs
  if important.length = 0 then msgs else important

/-- The sort comparator of `gmail.ts`, lines 152-156: `bDate - aDate ≤ 0`,
i.e. descending `internalDate`; JS `Array.prototype.sort` is stable, which a
stable merge sort realizes. -/
def msgLE (a b : Msg) : Bool :=
  b.internalDate ≤ a.internalDate

/-- The ranking stage (`gmail.ts`, lines 138-157): allow-list filter with
empty fallback, stable sort by `internalDate` descending, truncation to
`max_results`. -/
def rankMessages (senders : List String) (limit : Nat) (msgs : List Msg) : List Msg :=
  ((chooseImportant senders msgs).mergeSort msgLE).take limit

end Gmail

namespace Notion

/-- A Notion page property value, tagged the way the API tags it
(`prop.type` discriminates; `other` collects the remaining types). -/
inductive NProp where
  | titleP (texts : List String)
  | dateP (start : Option String)
  | statusP (name : Option String)
  | selectP (name : Option String)
  | relationP (ids : List String)
  | otherP (ty : String)
deriving Repr, DecidableEq

/-- A Notion page: id, `properties` as the ordered entry list that
`Object.entries` yields, and url. -/
structure NPage where
  id : String
  props : List (String × NProp)
  url : String
deriving Repr, DecidableEq

/-- The task record built by `pageToTask` (`notion.ts`, lines 232-239). -/
structure Task where
  id : String
  name : String
  due_iso : Option String
  area : Option String
  done : Bool
  url : String
deriving Repr, DecidableEq

/-- JS object indexing `props[name]` on the entry list. -/
def propLookup (name : String) : List (String × NProp) → Option NProp
  | [] => none
  | (n, p) :: rest => if n = name then some p else propLookup name rest

/-- First property of type `title` (`notion.ts`, lines 174-180 and 204-209):
returns its rich-text fragments. -/
def findTitleProp : List (String × NProp) → Option (List String)
  | [] => none
  | (_, NProp.titleP texts) :: _ => some texts
  | _ :: rest => findTitleProp rest

/-- Computation of `nameVal` (`notion.ts`, lines 182-184): join the title fragments, falling
back to the page id when the join is empty (JS `|| page.id`). -/
def pageName (page : NPage) : String :=
  match findTitleProp page.props with
  | some texts => if String.join texts = "" then page.id else String.join texts
  | none => page.id

/-- Reading `props[dueProp]?.date?.start` (`notion.ts`, line 187). -/
def dueStart (dueProp : String) (props : List (String × NProp)) : Option String :=
  match propLookup dueProp props with
  | some (NProp.dateP s) => s
  | _ => none

/-- First relation-typed property whose name lower-cases to `area`
(`notion.ts`, lines 191-192): its relation id list. -/
def findAreaRel : List (String × NProp) → Option (List String)
  | [] => none
  | (n, NProp.relationP ids) :: rest =>
    if jsToLower n = "area" then some ids else findAreaRel rest
  | _ :: rest => findAreaRel rest

/-- Extract the area label from a (possibly failed) related-page lookup
(`notion.ts`, lines 201-210): `none` models a fetch error or a non-OK
response; a fetched page with no title-typed property also yields no label. -/
def areaFromRelated (related : Option NPage) : Option String :=
  match related with
  | none => none
  | some rp =>
    match findTitleProp rp.props with
    | none => none
    | some texts => some (String.join texts)

/-- Area resolution (`notion.ts`, lines 190-217) with an explicit lookup
oracle `lk` standing for the single-page fetch; the second component logs the
ids actually fetched.  Only the head of the relation array is ever passed to
the oracle. -/
def resolveAreaL (lk : String → Option NPage) (props : List (String × NProp)) :
    Option String × List String :=
  match findAreaRel props with
  | none => (none, [])
  | some [] => (none, [])
  | some (rid :: _) => (areaFromRelated (lk rid), [rid])

/-- The done flag (`notion.ts`, lines 220-230): status/select name (empty
when missing) membership in the configured done-value set, exact match. -/
def isDone (statusProp : Option String) (doneValues : List String)
    (props : List (String × NProp)) : Bool :=
  match statusProp with
  | none => false
  | some sp =>
    match propLookup sp props with
    | some (NProp.statusP n) => doneValues.contains (n.getD "")
    | some (NProp.selectP n) => doneValues.contains (n.getD "")
    | _ => false

/-- Function `pageToTask` (`notion.ts`, lines 170-240) with the related-page fetch
abstracted into the oracle `lk`. -/
def pageToTask (lk : String → Option NPage) (dueProp : String)
    (statusProp : Option String) (doneValues : List String) (page : NPage) : Task :=
  { id := page.id
    name := if pageName page = "" then "(Untitled)" else pageName page
    due_iso := dueStart dueProp page.props
    area := (resolveAreaL lk page.props).1
    done := isDone statusProp doneValues page.props
    url := page.url }

/-- Function `filterDone` (`notion.ts`, line 249). -/
def filterDone (tasks : List Task) : List Task :=
  tasks.filter (fun t => !t.done)

/-- The grouped result (`notion.ts`, lines 251-255). -/
structure TaskResult where
  today : List Task
  overdue : List Task
  upcoming : List Task
deriving Repr, DecidableEq

/-- Page-to-task conversion and done filtering applied to the three window
query results (`notion.ts`, lines 242-255). -/
def tasksResult (lk : String → Option NPage) (dueProp : String)
    (statusProp : Option String) (doneValues : List String)
    (overdueP todayP upcomingP : List NPage) : TaskResult :=
  { today := filterDone (todayP.map (pageToTask lk dueProp statusProp doneValues))
    overdue := filterDone (overdueP.map (pageToTask lk dueProp statusProp doneValues))
    upcoming := filterDone (upcomingP.map (pageToTask lk dueProp statusProp doneValues)) }

/-- The Notion query filters the handler posts (`notion.ts`, lines 87-131),
as an abstract syntax tree.  Date endpoints are timestamps (an ISO string
under the Notion date comparison semantics). -/
inductive NFilter where
  | dateBefore (prop : String) (t : Int)
  | dateAfter (prop : String) (t : Int)
  | dateOnOrAfter (prop : String) (t : Int)
  | dateOnOrBefore (prop : String) (t : Int)
  | statusNe (prop : String) (v : String)
  | andF (parts : List NFilter)
  | orF (parts : List NFilter)

/-- A row as the query engine sees it: the due timestamp and the status
label. -/
structure Row where
  due : Int
  status : String
deriving Repr, DecidableEq

mutual

/-- The Notion evaluation of a filter against a row: `before`/`after` are
strict, `on_or_*` inclusive, `does_not_equal` is disequality, `and`/`or` the
usual connectives. -/
def evalF : NFilter → Row → Bool
  | NFilter.dateBefore _ t, r => r.due < t
  | NFilter.dateAfter _ t, r => t < r.due
  | NFilter.dateOnOrAfter _ t, r => t ≤ r.due
  | NFilter.dateOnOrBefore _ t, r => r.due ≤ t
  | NFilter.statusNe _ v, r => r.status != v
  | NFilter.andF parts, r => evalAll parts r
  | NFilter.orF parts, r => evalAny parts r

/-- Conjunction over a filter list. -/
def evalAll : List NFilter → Row → Bool
  | [], _ => true
  | f :: rest, r => evalF f r && evalAll rest r

/-- Disjunction over a filter list. -/
def evalAny : List NFilter → Row → Bool
  | [], _ => false
  | f :: rest, r => evalF f r || evalAny rest r

end

/-- The optional not-done clause (`notion.ts`, lines 89-103): absent when the
status field is missing or the done-value set is empty; a single
`does_not_equal` for a singleton set; an `or` of `does_not_equal` clauses
otherwise. -/
def notDoneClause (statusProp : Option String) (doneValues : List String) :
    Option NFilter :=
  match statusProp, doneValues with
  | some _, [] => none
  | some sp, [v] => some (NFilter.statusNe sp v)
  | some sp, vs => some (NFilter.orF (vs.map (fun dv => NFilter.statusNe sp dv)))
  | none, _ => none

/-- Function `buildFilter` (`notion.ts`, lines 87-105): the date constraint, AND-ed
with the not-done clause when one exists. -/
def buildFilter (statusProp : Option String) (doneValues : List String)
    (dateFilter : NFilter) : NFilter :=
  match notDoneClause statusProp doneValues with
  | some c => NFilter.andF [dateFilter, c]
  | none => NFilter.andF [dateFilter]

/-- The caller-supplied window boundaries plus the clock value `now` read by
`Date.now()` when the upcoming filter is built (`notion.ts`, line 125). -/
structure WindowArgs where
  todayStart : Int
  todayEnd : Int
  now : Int
  daysAhead : Int
deriving Repr, DecidableEq

/-- Value `futureEnd` (`notion.ts`, line 125): `Date.now() + daysAhead` days, in
milliseconds. -/
def futureEnd (w : WindowArgs) : Int :=
  w.now + w.daysAhead * (24 * 60 * 60 * 1000)

/-- The overdue query filter (`notion.ts`, lines 111-114). -/
def overdueFilter (dueProp : String) (statusProp : Option String)
    (doneValues : List String) (w : WindowArgs) : NFilter :=
  buildFilter statusProp doneValues (NFilter.dateBefore dueProp w.todayStart)

/-- The today query filter (`notion.ts`, lines 117-122). -/
def todayWindowFilter (dueProp : String) (statusProp : Option String)
    (doneValues : List String) (w : WindowArgs) : NFilter :=
  buildFilter statusProp doneValues
    (NFilter.andF [NFilter.dateOnOrAfter dueProp w.todayStart,
      NFilter.dateOnOrBefore dueProp w.todayEnd])

/-- The upcoming query filter (`notion.ts`, lines 125-131). -/
def upcomingFilter (dueProp : String) (statusProp : Option String)
    (doneValues : List String) (w : WindowArgs) : NFilter :=
  buildFilter statusProp doneValues
    (NFilter.andF [NFilter.dateAfter dueProp w.todayEnd,
      NFilter.dateBefore dueProp (futureEnd w)])

/-- The due-field candidate list (`notion.ts`, line 62). -/
def dueCandidates : List String :=
  ["Due", "Due date", "Due Date", "Date"]

/-- Schema lookup: the declared type of a property name in the database
schema (`properties[cand]?.type`). -/
def schemaType (name : String) : List (String × String) → Option String
  | [] => none
  | (n, t) :: rest => if n = name then some t else schemaType name rest

/-- Due-field resolution (`notion.ts`, lines 60-67): the first candidate
whose declared type is `date`, defaulting to `Due`. -/
def resolveDueField (schema : List (String × String)) : String :=
  match dueCandidates.find? (fun c => schemaType c schema == some "date") with
  | some c => c
  | none => "Due"

end Notion

namespace FromHeader

/-- JS `String.prototype.trim` on a character list. -/
def jsTrim (s : List Char) : List Char :=
  ((s.dropWhile Char.isWhitespace).reverse.dropWhile Char.isWhitespace).reverse

/-- Remove one leading double quote, if present. -/
def dropLeadQuote : List Char → List Char
  | '"' :: rest => rest
  | s => s

/-- Remove one trailing double quote, if present. -/
def dropTrailQuote (s : List Char) : List Char :=
  (dropLeadQuote s.reverse).reverse

/-- JS `replace` with pattern anchored-quote (`gmail.ts`, line 91): strip one leading and one
trailing double quote. -/
def stripQuotes (s : List Char) : List Char :=
  dropTrailQuote (dropLeadQuote s)

/-- JS `split("<")[0]`: the text before the first `<` (the whole string when
there is none). -/
def beforeLt (s : List Char) : List Char :=
  s.takeWhile (fun c => c != '<')

/-- JS `split("<")[1]` under the guard that `<` occurs: the text strictly
between the first and the second `<` (to the end when there is no second). -/
def secondLtSeg (s : List Char) : List Char :=
  ((s.dropWhile (fun c => c != '<')).drop 1).takeWhile (fun c => c != '<')

/-- JS `x || undefined`: an empty extracted string becomes an absent field. -/
def omitEmpty (s : List Char) : Option (List Char) :=
  if s = [] then none else some s

/-- The sender-identity extraction of `gmail.ts`, lines 86-97, returning
`(from_name, from_email)`. -/
def parseFrom (s : List Char) : Option (List Char) × Option (List Char) :=
  if s.contains '<' && s.contains '>' then
    let namePart := stripQuotes (jsTrim (beforeLt s))
    let emailPart := jsTrim ((secondLtSeg s).takeWhile (fun c => c != '>'))
    (omitEmpty namePart, omitEmpty emailPart)
  else
    (none, omitEmpty s)

/-- The email part as the claim words it: the trimmed text between the first
`<` and the next `>`. -/
def specEmailBetween (s : List Char) : List Char :=
  jsTrim (((s.dropWhile (fun c => c != '<')).drop 1).takeWhile (fun c => c != '>'))

/-- The email part as amended: the trimmed text after the first `<` up to
the next `<` or `>` (to the end when neither occurs). -/
def amendedEmail (s : List Char) : List Char :=
  jsTrim (((s.dropWhile (fun c => c != '<')).drop 1).takeWhile
    (fun c => c != '<' && c != '>'))

/-- The name part: the trimmed text before the first `<`, with one leading
and one trailing double quote stripped. -/
def specName (s : List Char) : List Char :=
  stripQuotes (jsTrim (s.takeWhile (fun c => c != '<')))

end FromHeader

namespace Examples

/-- Two messages whose `threadId` is present but empty: JS `||` groups each
under its own message id. -/
def emptyThreadMsgs : List Gmail.Msg :=
  [⟨"a", some "", none, 1⟩, ⟨"b", some "", none, 2⟩]

/-- Two messages of one thread with timestamps 100 and 200 (spec scenario C). -/
def threadT1Msgs : List Gmail.Msg :=
  [⟨"m1", some "T1", some "x@x.com", 100⟩, ⟨"m2", some "T1", some "y@x.com", 200⟩]

/-- Scenario B: an allow-list that matches neither record. -/
def scenarioBMsgs : List Gmail.Msg :=
  [⟨"m1", some "T1", some "b@x.com", 100⟩, ⟨"m2", some "T2", some "c@x.com", 200⟩]

/-- A window with `now = 0`, `todayStart = 0`, `todayEnd = 100`,
`daysAhead = 1`. -/
def cexWindow : Notion.WindowArgs :=
  ⟨0, 100, 0, 1⟩

/-- A row due between `now + daysAhead` and `todayEnd + daysAhead`. -/
def cexRow : Notion.Row :=
  ⟨86400050, ""⟩

/-- Scenario A pages: one with status `Done`, one with status `In Progress`. -/
def donePage : Notion.NPage :=
  ⟨"p1", [("Name", Notion.NProp.titleP ["Ship it"]),
          ("Done", Notion.NProp.statusP (some "Done"))], "u1"⟩

/-- See `donePage`. -/
def inProgressPage : Notion.NPage :=
  ⟨"p2", [("Name", Notion.NProp.titleP ["Draft"]),
          ("Done", Notion.NProp.statusP (some "In Progress"))], "u2"⟩

/-- A page whose `Area` relation points at `r1`. -/
def areaPage : Notion.NPage :=
  ⟨"p3", [("Name", Notion.NProp.titleP ["Plan"]),
          ("Area", Notion.NProp.relationP ["r1", "r2"])], "u3"⟩

/-- A schema with no date-typed field among the due candidates
(scenario D). -/
def noDateSchema : List (String × String) :=
  [("Name", "title"), ("Done", "status")]

/-- The header `x<a<b> c`: a second `<` occurs before the first `>`. -/
def trickyHeader : List Char :=
  ['x', '<', 'a', '<', 'b', '>', ' ', 'c']

end Examples

namespace Gmail

theorem findRep_mapSet (k k' : String) (m : Msg) (acc : List (String × Msg)) :
    findRep k (mapSet k' m acc) = if k' = k then some m else findRep k acc := by
  induction acc with
  | nil =>
    simp [mapSet, findRep]
  | cons p rest ih =>
    obtain ⟨k2, m2⟩ := p
    by_cases h2 : k2 = k'
    · subst h2
      by_cases hk : k2 = k
      · subst hk; simp [mapSet, findRep]
      · simp [mapSet, findRep, hk]
    · by_cases hk : k2 = k
      · subst hk
        have h' : ¬ k' = k2 := fun h => h2 h.symm
        simp [mapSet, findRep, h2, h']
      · simp [mapSet, findRep, h2, hk, ih]

theorem findRep_dedupStep (acc : List (String × Msg)) (m : Msg) (k : String) :
    findRep k (dedupStep acc m) =
      if groupKey m = k then firstMaxAcc (findRep k acc) m else findRep k acc := by
  unfold dedupStep
  cases h : findRep (groupKey m) acc with
  | none =>
    rw [findRep_mapSet]
    by_cases hk : groupKey m = k
    · subst hk; simp [h, firstMaxAcc]
    · simp [hk]
  | some rep =>
    by_cases hd : rep.internalDate < m.internalDate
    · simp only [hd, if_true]
      rw [findRep_mapSet]
      by_cases hk : groupKey m = k
      · subst hk; simp [h, firstMaxAcc, hd]
      · simp [hk]
    · simp only [hd, if_false]
      by_cases hk : groupKey m = k
      · subst hk; simp [h, firstMaxAcc, hd]
      · simp [hk]

theorem findRep_foldl (msgs : List Msg) (acc : List (String × Msg)) (k : String) :
    findRep k (msgs.foldl dedupStep acc) =
      (msgs.filter (fun m => groupKey m == k)).foldl firstMaxAcc (findRep k acc) := by
  induction msgs generalizing acc with
  | nil => rfl
  | cons m rest ih =>
    simp only [List.foldl_cons, List.filter_cons]
    by_cases hk : groupKey m = k
    · simp [hk, ih, findRep_dedupStep]
    · simp [hk, ih, findRep_dedupStep]

theorem findRep_eq_none_iff (k : String) (acc : List (String × Msg)) :
    findRep k acc = none ↔ k ∉ acc.map Prod.fst := by
  induction acc with
  | nil => simp [findRep]
  | cons p rest ih =>
    obtain ⟨k2, m2⟩ := p
    by_cases hk : k2 = k
    · subst hk; simp [findRep]
    · simp only [findRep, hk, if_false, List.map_cons, List.mem_cons]
      rw [ih]
      constructor
      · intro h hmem
        rcases hmem with h1 | h2
        · exact hk h1.symm
        · exact h h2
      · intro h h2
        exact h (Or.inr h2)

theorem map_fst_mapSet (k : String) (m : Msg) (acc : List (String × Msg)) :
    (mapSet k m acc).map Prod.fst =
      if findRep k acc = none then acc.map Prod.fst ++ [k] else acc.map Prod.fst := by
  induction acc with
  | nil => simp [mapSet, findRep]
  | cons p rest ih =>
    obtain ⟨k2, m2⟩ := p
    by_cases hk : k2 = k
    · subst hk; simp [mapSet, findRep]
    · simp only [mapSet, findRep, hk, if_false, List.map_cons]
      rw [ih]
      by_cases hr : findRep k rest = none
      · simp [hr]
      · simp [hr]

theorem map_fst_dedupStep (acc : List (String × Msg)) (m : Msg) :
    (dedupStep acc m).map Prod.fst =
      if findRep (groupKey m) acc = none then acc.map Prod.fst ++ [groupKey m]
      else acc.map Prod.fst := by
  unfold dedupStep
  cases h : findRep (groupKey m) acc with
  | none => simp [map_fst_mapSet, h]
  | some rep =>
    by_cases hd : rep.internalDate < m.internalDate
    · simp [hd, map_fst_mapSet, h]
    · simp [hd, h]

theorem nodup_keys_dedupStep (acc : List (String × Msg)) (m : Msg)
    (h : (acc.map Prod.fst).Nodup) : ((dedupStep acc m).map Prod.fst).Nodup := by
  rw [map_fst_dedupStep]
  by_cases hr : findRep (groupKey m) acc = none
  · have hnot : groupKey m ∉ acc.map Prod.fst := (findRep_eq_none_iff _ _).mp hr
    simp [hr, List.nodup_append, h, hnot]
  · simp [hr, h]

theorem nodup_keys_foldl (msgs : List Msg) (acc : List (String × Msg))
    (h : (acc.map Prod.fst).Nodup) :
    ((msgs.foldl dedupStep acc).map Prod.fst).Nodup := by
  induction msgs generalizing acc with
  | nil => exact h
  | cons m rest ih => exact ih _ (nodup_keys_dedupStep _ _ h)

theorem stored_groupKey_mapSet (k : String) (m : Msg) (acc : List (String × Msg))
    (hacc : ∀ p ∈ acc, groupKey p.2 = p.1) (hm : groupKey m = k) :
    ∀ p ∈ mapSet k m acc, groupKey p.2 = p.1 := by
  induction acc with
  | nil =>
    intro p hp
    simp only [mapSet, List.mem_singleton] at hp
    subst hp; exact hm
  | cons q rest ih =>
    obtain ⟨k2, m2⟩ := q
    intro p hp
    by_cases hk : k2 = k
    · subst hk
      simp only [mapSet, if_true, List.mem_cons] at hp
      rcases hp with rfl | hp
      · exact hm
      · exact hacc _ (List.mem_cons_of_mem _ hp)
    · simp only [mapSet, hk, if_false, List.mem_cons] at hp
      rcases hp with rfl | hp
      · exact hacc _ (List.mem_cons_self _ _)
      · exact ih (fun q hq => hacc q (List.mem_cons_of_mem _ hq)) p hp

theorem stored_groupKey_dedupStep (acc : List (String × Msg)) (m : Msg)
    (hacc : ∀ p ∈ acc, groupKey p.2 = p.1) :
    ∀ p ∈ dedupStep acc m, groupKey p.2 = p.1 := by
  unfold dedupStep
  cases findRep (groupKey m) acc with
  | none => exact stored_groupKey_mapSet _ _ _ hacc rfl
  | some rep =>
    by_cases hd : rep.internalDate < m.internalDate
    · simp only [hd, if_true]
      exact stored_groupKey_mapSet _ _ _ hacc rfl
    · simp only [hd, if_false]
      exact hacc

theorem stored_groupKey_foldl (msgs : List Msg) (acc : List (String × Msg))
    (hacc : ∀ p ∈ acc, groupKey p.2 = p.1) :
    ∀ p ∈ msgs.foldl dedupStep acc, groupKey p.2 = p.1 := by
  induction msgs generalizing acc with
  | nil => exact hacc
  | cons m rest ih => exact ih _ (stored_groupKey_dedupStep _ _ hacc)

theorem findRep_of_mem_nodup (acc : List (String × Msg)) (k : String) (m : Msg)
    (hn : (acc.map Prod.fst).Nodup) (hmem : (k, m) ∈ acc) :
    findRep k acc = some m := by
  induction acc with
  | nil => cases hmem
  | cons p rest ih =>
    obtain ⟨k2, m2⟩ := p
    simp only [List.map_cons, List.nodup_cons] at hn
    rcases List.mem_cons.mp hmem with h | h
    · injection h with h1 h2
      subst h1; subst h2
      simp [findRep]
    · have hne : k2 ≠ k := by
        intro hkk
        subst hkk
        exact hn.1 (List.mem_map_of_mem Prod.fst h)
      simp only [findRep, hne, if_false]
      exact ih hn.2 h

theorem foldl_firstMaxAcc_isSome (l : List Msg) (o : Option Msg) (h : l ≠ []) :
    (l.foldl firstMaxAcc o).isSome := by
  induction l generalizing o with
  | nil => cases h rfl
  | cons m rest ih =>
    simp only [List.foldl_cons]
    rcases rest with _ | ⟨m2, rest2⟩
    · cases o <;> simp [firstMaxAcc, firstMaxAcc.eq_def] <;> split <;> simp
    · exact ih _ (by simp)

theorem findRep_isSome_iff (k : String) (acc : List (String × Msg)) :
    (findRep k acc).isSome ↔ k ∈ acc.map Prod.fst := by
  rw [Option.isSome_iff_ne_none, ne_eq, findRep_eq_none_iff]
  exact not_not

theorem mem_keys_foldl (msgs : List Msg) (k : String) :
    k ∈ (msgs.foldl dedupStep []).map Prod.fst ↔ k ∈ msgs.map groupKey := by
  rw [← findRep_isSome_iff, findRep_foldl]
  simp only [findRep]
  constructor
  · intro hs
    rcases hf : msgs.filter (fun m => groupKey m == k) with _ | ⟨m, rest⟩
    · rw [hf] at hs; simp at hs
    · have hm : m ∈ msgs.filter (fun m => groupKey m == k) := by
        rw [hf]; exact List.mem_cons_self _ _
      have hm2 := List.mem_of_mem_filter hm
      have hp := List.of_mem_filter hm
      simp only [beq_iff_eq] at hp
      exact hp ▸ List.mem_map_of_mem groupKey hm2
  · intro hk
    obtain ⟨m, hm, rfl⟩ := List.mem_map.mp hk
    apply foldl_firstMaxAcc_isSome
    intro h
    have := List.filter_eq_nil_iff.mp h m hm
    simp at this

theorem map_groupKey_dedupe (msgs : List Msg) :
    (dedupe msgs).map groupKey = (msgs.foldl dedupStep []).map Prod.fst := by
  unfold dedupe
  rw [List.map_map]
  apply List.map_congr_left
  intro p hp
  exact stored_groupKey_foldl msgs [] (by simp) p hp

end Gmail

/-- C1 (amended: a present-but-empty `thread_id` also defaults the group key
to the message id, exactly as JS `||` does): the thread deduplication step
outputs exactly one record per distinct group key — the group keys of the
output are duplicate-free and are exactly the group keys occurring in the
input — and each surviving record is the first record of its group attaining
the maximum `internal_date` of the group (a record replaces the stored
representative only on a strictly greater timestamp, so ties keep the first
in fetch order). -/
theorem C1_dedupe_thread_groups (msgs : List Gmail.Msg) :
    ((Gmail.dedupe msgs).map Gmail.groupKey).Nodup
    ∧ (∀ k, k ∈ (Gmail.dedupe msgs).map Gmail.groupKey ↔ k ∈ msgs.map Gmail.groupKey)
    ∧ (∀ m ∈ Gmail.dedupe msgs,
        Gmail.firstMax (msgs.filter (fun m' => Gmail.groupKey m' == Gmail.groupKey m))
          = some m) := by
  refine ⟨?_, ?_, ?_⟩
  · rw [Gmail.map_groupKey_dedupe]
    exact Gmail.nodup_keys_foldl msgs [] (by simp)
  · intro k
    rw [Gmail.map_groupKey_dedupe]
    exact Gmail.mem_keys_foldl msgs k
  · intro m hm
    simp only [Gmail.dedupe] at hm
    obtain ⟨p, hp, hpm⟩ := List.mem_map.mp hm
    have hkey := Gmail.stored_groupKey_foldl msgs [] (by simp) p hp
    have hfind : Gmail.findRep p.1 (msgs.foldl Gmail.dedupStep []) = some p.2 :=
      Gmail.findRep_of_mem_nodup _ _ _ (Gmail.nodup_keys_foldl msgs [] (by simp))
        (by rw [Prod.mk.eta]; exact hp)
    subst hpm
    rw [hkey, Gmail.firstMax]
    have heq := Gmail.findRep_foldl msgs [] p.1
    simp only [Gmail.findRep] at heq
    rw [← heq]
    exact hfind

/-- Witness for C1 at spec scenario C: of the two `T1` messages with
timestamps 100 and 200, the record with timestamp 200 survives. -/
theorem C1_dedupe_thread_groups_witness :
    Gmail.firstMax (Examples.threadT1Msgs.filter
        (fun m' => Gmail.groupKey m' ==
          Gmail.groupKey ⟨"m2", some "T1", some "y@x.com", 200⟩))
      = some ⟨"m2", some "T1", some "y@x.com", 200⟩ :=
  (C1_dedupe_thread_groups Examples.threadT1Msgs).2.2
    ⟨"m2", some "T1", some "y@x.com", 200⟩ (by decide)

/-- C1 counterexample: the claim reads the group key as the `thread_id`
whenever one is present.  On two records whose `thread_id` is present but
empty, that reading yields a single distinct group key, yet the code
(JS `thread_id || id`, empty string falsy) keeps both records. -/
theorem C1_counterexample :
    ¬ ((Gmail.dedupe Examples.emptyThreadMsgs).length
        = ((Examples.emptyThreadMsgs.map Gmail.specGroupKey).dedup).length) := by
  decide

namespace Gmail

theorem matchesSender_iff (senders : List String) (m : Msg) :
    matchesSender senders m = true ↔
      ∃ a, m.from_email = some a ∧ ∃ s ∈ senders, jsToLower a = jsToLower s := by
  cases hfe : m.from_email with
  | none => simp [matchesSender, hfe]
  | some a =>
    simp only [matchesSender, hfe, Option.some.injEq]
    rw [List.contains_iff_exists_mem_beq]
    constructor
    · rintro ⟨b, hb, hab⟩
      obtain ⟨s, hs, rfl⟩ := List.mem_map.mp hb
      simp only [beq_iff_eq] at hab
      exact ⟨a, rfl, s, hs, hab⟩
    · rintro ⟨a2, rfl, s, hs, hlow⟩
      exact ⟨jsToLower s, List.mem_map_of_mem jsToLower hs, by simp [hlow]⟩

theorem chooseImportant_eq (senders : List String) (msgs : List Msg) :
    chooseImportant senders msgs =
      if (importanceFilter senders msgs).length = 0 then msgs
      else importanceFilter senders msgs := rfl

theorem chooseImportant_cases (senders : List String) (msgs : List Msg) :
    chooseImportant senders msgs = msgs
    ∨ chooseImportant senders msgs = msgs.filter (matchesSender senders) := by
  rw [chooseImportant_eq]
  by_cases he : (importanceFilter senders msgs).length = 0
  · simp [he]
  · right
    simp only [he, if_false]
    unfold importanceFilter
    by_cases hl : senders.length > 0
    · simp [hl]
    · simp only [importanceFilter, hl, if_false] at he
      cases he rfl

theorem importanceFilter_all (senders : List String) (msgs : List Msg) :
    ∀ m ∈ importanceFilter senders msgs, matchesSender senders m = true := by
  unfold importanceFilter
  by_cases hl : senders.length > 0
  · simp only [hl, if_true]
    intro m hm
    exact List.of_mem_filter hm
  · simp [hl]

theorem msgLE_trans : ∀ (a b c : Msg), msgLE a b → msgLE b c → msgLE a c := by
  intro a b c
  simp only [msgLE, decide_eq_true_eq]
  omega

theorem msgLE_total : ∀ (a b : Msg), msgLE a b || msgLE b a := by
  intro a b
  simp only [msgLE, Bool.or_eq_true, decide_eq_true_eq]
  omega

theorem mergeSort_filter_eq_date (l : List Msg) (d : Nat) :
    (l.mergeSort msgLE).filter (fun m => m.internalDate == d)
      = l.filter (fun m => m.internalDate == d) := by
  have hpair : (l.filter (fun m => m.internalDate == d)).Pairwise (msgLE · ·) := by
    apply List.pairwise_of_forall_mem_list
    intro a ha b hb
    have hda := List.of_mem_filter ha
    have hdb := List.of_mem_filter hb
    simp only [beq_iff_eq] at hda hdb
    simp [msgLE, hda, hdb]
  have hsub : (l.filter (fun m => m.internalDate == d)).Sublist (l.mergeSort msgLE) :=
    List.sublist_mergeSort msgLE_trans msgLE_total hpair (List.filter_sublist l)
  have hidem : (l.filter (fun m => m.internalDate == d)).filter
      (fun m => m.internalDate == d) = l.filter (fun m => m.internalDate == d) := by
    rw [List.filter_filter]
    simp only [Bool.and_self]
  have hsub2 : (l.filter (fun m => m.internalDate == d)).Sublist
      ((l.mergeSort msgLE).filter (fun m => m.internalDate == d)) := by
    rw [← hidem]
    exact hsub.filter _
  have hperm : List.Perm ((l.mergeSort msgLE).filter (fun m => m.internalDate == d))
      (l.filter (fun m => m.internalDate == d)) :=
    (List.mergeSort_perm l msgLE).filter _
  exact (hsub2.eq_of_length hperm.length_eq.symm).symm

theorem mem_rankMessages (senders : List String) (limit : Nat) (msgs : List Msg) :
    ∀ m ∈ rankMessages senders limit msgs, m ∈ chooseImportant senders msgs := by
  intro m hm
  simp only [rankMessages] at hm
  exact List.mem_mergeSort.mp (List.mem_of_mem_take hm)

theorem rank_pairwise (senders : List String) (limit : Nat) (msgs : List Msg) :
    (rankMessages senders limit msgs).Pairwise (msgLE · ·) := by
  simp only [rankMessages]
  exact (List.sorted_mergeSort msgLE_trans msgLE_total
    (chooseImportant senders msgs)).sublist (List.take_sublist _ _)

theorem chooseImportant_rank_fixed (senders : List String) (limit : Nat)
    (msgs : List Msg) :
    chooseImportant senders (rankMessages senders limit msgs)
      = rankMessages senders limit msgs := by
  by_cases hl : senders.length > 0
  · by_cases hfe : (importanceFilter senders msgs).length = 0
    · have hsurv : chooseImportant senders msgs = msgs := by
        rw [chooseImportant_eq, if_pos hfe]
      have hnil : importanceFilter senders (rankMessages senders limit msgs) = [] := by
        simp only [importanceFilter, hl, if_true]
        apply List.filter_eq_nil_iff.mpr
        intro m hm
        have hmem : m ∈ msgs := hsurv ▸ mem_rankMessages senders limit msgs m hm
        intro hmatch
        have : m ∈ importanceFilter senders msgs := by
          simp only [importanceFilter, hl, if_true]
          exact List.mem_filter.mpr ⟨hmem, hmatch⟩
        rw [List.length_eq_zero.mp hfe] at this
        cases this
      rw [chooseImportant_eq, hnil]
      simp
    · have hsurv : chooseImportant senders msgs = importanceFilter senders msgs := by
        rw [chooseImportant_eq, if_neg hfe]
      have hall : ∀ m ∈ rankMessages senders limit msgs,
          matchesSender senders m = true := by
        intro m hm
        exact importanceFilter_all senders msgs m
          (hsurv ▸ mem_rankMessages senders limit msgs m hm)
      have hfix : importanceFilter senders (rankMessages senders limit msgs)
          = rankMessages senders limit msgs := by
        simp only [importanceFilter, hl, if_true]
        exact List.filter_eq_self.mpr hall
      rw [chooseImportant_eq, hfix, ite_self]
  · have hnil : importanceFilter senders (rankMessages senders limit msgs) = [] := by
      simp [importanceFilter, hl]
    rw [chooseImportant_eq, hnil]
    simp

end Gmail

/-- C2: when the allow-list is non-empty the importance filter keeps exactly
the records whose `from_email` lower-cases to the lower-casing of some
allow-list entry; whenever the filtered set is empty (no match, or an empty
allow-list — which leaves the intermediate array empty by construction) the
ranker falls back to the full deduplicated set, so the final output is drawn
from all threads. -/
theorem C2_importance_filter_fallback (senders : List String) (msgs : List Gmail.Msg) :
    (senders ≠ [] →
      ∀ m, m ∈ Gmail.importanceFilter senders msgs ↔
        m ∈ msgs ∧ ∃ a, m.from_email = some a
          ∧ ∃ s ∈ senders, jsToLower a = jsToLower s)
    ∧ (Gmail.importanceFilter senders msgs = [] →
        Gmail.chooseImportant senders msgs = msgs)
    ∧ (Gmail.importanceFilter senders msgs = [] →
        ∀ limit, ∀ m ∈ Gmail.rankMessages senders limit msgs, m ∈ msgs) := by
  refine ⟨?_, ?_, ?_⟩
  · intro hne m
    have hlen : senders.length > 0 := by
      cases senders with
      | nil => cases hne rfl
      | cons s rest => simp
    simp only [Gmail.importanceFilter, if_pos hlen]
    rw [List.mem_filter, Gmail.matchesSender_iff]
  · intro hemp
    rw [Gmail.chooseImportant_eq, hemp]
    simp
  · intro hemp limit m hm
    have hchoose : Gmail.chooseImportant senders msgs = msgs := by
      rw [Gmail.chooseImportant_eq, hemp]; simp
    exact hchoose ▸ Gmail.mem_rankMessages senders limit msgs m hm

/-- Witness for C2 at spec scenario B: the allow-list `a@x.com` matches
neither record, so the ranking stage falls back to the full two-record set. -/
theorem C2_importance_filter_fallback_witness :
    Gmail.chooseImportant ["a@x.com"] Examples.scenarioBMsgs = Examples.scenarioBMsgs :=
  (C2_importance_filter_fallback ["a@x.com"] Examples.scenarioBMsgs).2.1 (by decide)

/-- C5: the final message output has length at most `max_results`, is sorted
by `internal_date` descending, and records with equal `internal_date` keep
their original relative order (for every timestamp, the output records
carrying it form a sublist of the input records carrying it). -/
theorem C5_rank_sorted_truncated (senders : List String) (limit : Nat)
    (msgs : List Gmail.Msg) :
    (Gmail.rankMessages senders limit msgs).length ≤ limit
    ∧ (Gmail.rankMessages senders limit msgs).Pairwise
        (fun a b => b.internalDate ≤ a.internalDate)
    ∧ ∀ d : Nat,
        ((Gmail.rankMessages senders limit msgs).filter
            (fun m => m.internalDate == d)).Sublist
          (msgs.filter (fun m => m.internalDate == d)) := by
  refine ⟨?_, ?_, ?_⟩
  · simp only [Gmail.rankMessages]
    exact List.length_take_le _ _
  · exact (Gmail.rank_pairwise senders limit msgs).imp
      (by intro a b h; simpa [Gmail.msgLE] using h)
  · intro d
    have h1 : ((Gmail.rankMessages senders limit msgs).filter
        (fun m => m.internalDate == d)).Sublist
        (((Gmail.chooseImportant senders msgs).mergeSort Gmail.msgLE).filter
          (fun m => m.internalDate == d)) :=
      (List.take_sublist _ _).filter _
    rw [Gmail.mergeSort_filter_eq_date] at h1
    have h2 : ((Gmail.chooseImportant senders msgs).filter
        (fun m => m.internalDate == d)).Sublist
        (msgs.filter (fun m => m.internalDate == d)) := by
      rcases Gmail.chooseImportant_cases senders msgs with h | h
      · rw [h]
      · rw [h]
        exact (List.filter_sublist msgs).filter _
    exact h1.trans h2

namespace Notion

theorem find?_eq_head?_filter (p : α → Bool) (l : List α) :
    l.find? p = (l.filter p).head? := by
  induction l with
  | nil => rfl
  | cons a rest ih =>
    by_cases h : p a
    · simp [List.find?_cons, List.filter_cons, h]
    · simp only [List.find?_cons, List.filter_cons, h, Bool.false_eq_true, if_false,
        cond_false]
      exact ih

end Notion

/-- C3 (amended: the upper bound of the upcoming window is the query-build
time `now` plus `daysAhead` days, not `todayEnd` plus `daysAhead`): the three
query filters select by exactly: overdue iff `due < todayStart`; today iff
`todayStart ≤ due ≤ todayEnd` (both endpoints inclusive); upcoming iff
`todayEnd < due < now + daysAhead` days. -/
theorem C3_window_date_constraints (dp : String) (w : Notion.WindowArgs) (due : Int) :
    (Notion.evalF (Notion.overdueFilter dp none [] w) ⟨due, ""⟩ = true
        ↔ due < w.todayStart)
    ∧ (Notion.evalF (Notion.todayWindowFilter dp none [] w) ⟨due, ""⟩ = true
        ↔ (w.todayStart ≤ due ∧ due ≤ w.todayEnd))
    ∧ (Notion.evalF (Notion.upcomingFilter dp none [] w) ⟨due, ""⟩ = true
        ↔ (w.todayEnd < due ∧ due < w.now + w.daysAhead * (24 * 60 * 60 * 1000))) := by
  refine ⟨?_, ?_, ?_⟩ <;>
    simp [Notion.overdueFilter, Notion.todayWindowFilter, Notion.upcomingFilter,
      Notion.buildFilter, Notion.notDoneClause, Notion.futureEnd,
      Notion.evalF, Notion.evalAll]

/-- C3 counterexample: with `now = 0`, `todayStart = 0`, `todayEnd = 100`,
`daysAhead = 1` and `due = 86400050`, the claim's bound
(`due < todayEnd + daysAhead` days, i.e. `due < 86400100`) admits the row,
but the built upcoming filter (bound `now + daysAhead` days `= 86400000`)
rejects it. -/
theorem C3_counterexample :
    Notion.evalF (Notion.upcomingFilter "Due" none [] Examples.cexWindow)
        Examples.cexRow = false
    ∧ Examples.cexWindow.todayEnd < Examples.cexRow.due
    ∧ Examples.cexRow.due
        < Examples.cexWindow.todayEnd
          + Examples.cexWindow.daysAhead * (24 * 60 * 60 * 1000) := by
  decide

/-- C4: every record in any of the three returned lists has `done = false`;
a record whose status/select value is a member of the configured done-value
set (exact, case-sensitive match) is excluded from the filtered list of its
window, and a record whose value is not a member is included. -/
theorem C4_done_records_excluded (lk : String → Option Notion.NPage) (dp : String)
    (sp : Option String) (dvs : List String)
    (overdueP todayP upcomingP : List Notion.NPage) :
    (∀ l ∈ [(Notion.tasksResult lk dp sp dvs overdueP todayP upcomingP).today,
            (Notion.tasksResult lk dp sp dvs overdueP todayP upcomingP).overdue,
            (Notion.tasksResult lk dp sp dvs overdueP todayP upcomingP).upcoming],
      ∀ t ∈ l, t.done = false)
    ∧ (∀ (pages : List Notion.NPage) (p : Notion.NPage), p ∈ pages →
        Notion.isDone sp dvs p.props = true →
        Notion.pageToTask lk dp sp dvs p
          ∉ Notion.filterDone (pages.map (Notion.pageToTask lk dp sp dvs)))
    ∧ (∀ (pages : List Notion.NPage) (p : Notion.NPage), p ∈ pages →
        Notion.isDone sp dvs p.props = false →
        Notion.pageToTask lk dp sp dvs p
          ∈ Notion.filterDone (pages.map (Notion.pageToTask lk dp sp dvs)))
    ∧ (Notion.tasksResult lk dp sp dvs overdueP todayP upcomingP).today
        = Notion.filterDone (todayP.map (Notion.pageToTask lk dp sp dvs))
    ∧ (Notion.tasksResult lk dp sp dvs overdueP todayP upcomingP).overdue
        = Notion.filterDone (overdueP.map (Notion.pageToTask lk dp sp dvs))
    ∧ (Notion.tasksResult lk dp sp dvs overdueP todayP upcomingP).upcoming
        = Notion.filterDone (upcomingP.map (Notion.pageToTask lk dp sp dvs)) := by
  refine ⟨?_, ?_, ?_, rfl, rfl, rfl⟩
  · intro l hl t ht
    simp only [List.mem_cons, List.not_mem_nil, or_false] at hl
    have hdone : (!t.done) = true := by
      rcases hl with rfl | rfl | rfl <;>
        (simp only [Notion.tasksResult, Notion.filterDone] at ht
         exact (List.mem_filter.mp ht).2)
    simpa using hdone
  · intro pages p _ hdone hmem
    simp only [Notion.filterDone] at hmem
    have h1 : (!(Notion.pageToTask lk dp sp dvs p).done) = true :=
      (List.mem_filter.mp hmem).2
    have h2 : (Notion.pageToTask lk dp sp dvs p).done
        = Notion.isDone sp dvs p.props := rfl
    rw [h2, hdone] at h1
    cases h1
  · intro pages p hp hdone
    simp only [Notion.filterDone]
    apply List.mem_filter.mpr
    refine ⟨List.mem_map_of_mem _ hp, ?_⟩
    have h2 : (Notion.pageToTask lk dp sp dvs p).done
        = Notion.isDone sp dvs p.props := rfl
    simp [h2, hdone]

/-- Witness for C4 at spec scenario A: with `doneValues = {"Done"}`, the page
with status `Done` is excluded and the page with status `In Progress` is
included. -/
theorem C4_done_records_excluded_witness :
    Notion.pageToTask (fun _ => none) "Due" (some "Done") ["Done"] Examples.donePage
      ∉ Notion.filterDone ([Examples.donePage, Examples.inProgressPage].map
          (Notion.pageToTask (fun _ => none) "Due" (some "Done") ["Done"]))
    ∧ Notion.pageToTask (fun _ => none) "Due" (some "Done") ["Done"]
        Examples.inProgressPage
      ∈ Notion.filterDone ([Examples.donePage, Examples.inProgressPage].map
          (Notion.pageToTask (fun _ => none) "Due" (some "Done") ["Done"])) :=
  ⟨(C4_done_records_excluded (fun _ => none) "Due" (some "Done") ["Done"] [] [] []).2.1
      [Examples.donePage, Examples.inProgressPage] Examples.donePage
      (by decide) (by decide),
   (C4_done_records_excluded (fun _ => none) "Due" (some "Done") ["Done"] [] [] []).2.2.1
      [Examples.donePage, Examples.inProgressPage] Examples.inProgressPage
      (by decide) (by decide)⟩

/-- C6: with the status field present and a non-empty done-value set, each
built query predicate is the AND of the date constraint with a not-done
clause — a single `does_not_equal` for a one-element set, an OR of
`does_not_equal` clauses (OR-of-negations) for a larger set; with the status
field absent or the set empty, the built predicate is the date constraint
alone (an AND of just that constraint, evaluating identically to it). -/
theorem C6_buildFilter_shape (sp : String) (dvs : List String) (df : Notion.NFilter) :
    (∀ v, dvs = [v] →
      Notion.buildFilter (some sp) dvs df
        = Notion.NFilter.andF [df, Notion.NFilter.statusNe sp v])
    ∧ (2 ≤ dvs.length →
      Notion.buildFilter (some sp) dvs df
        = Notion.NFilter.andF
            [df, Notion.NFilter.orF (dvs.map (fun dv => Notion.NFilter.statusNe sp dv))])
    ∧ (Notion.buildFilter none dvs df = Notion.NFilter.andF [df]
        ∧ ∀ r, Notion.evalF (Notion.buildFilter none dvs df) r = Notion.evalF df r)
    ∧ (Notion.buildFilter (some sp) [] df = Notion.NFilter.andF [df]
        ∧ ∀ r, Notion.evalF (Notion.buildFilter (some sp) [] df) r
            = Notion.evalF df r) := by
  have hnone : Notion.buildFilter none dvs df = Notion.NFilter.andF [df] := by
    cases dvs with
    | nil => rfl
    | cons v rest => rfl
  refine ⟨?_, ?_, ⟨hnone, ?_⟩, ⟨rfl, ?_⟩⟩
  · rintro v rfl
    rfl
  · intro hlen
    cases dvs with
    | nil => simp at hlen
    | cons v1 rest =>
      cases rest with
      | nil => simp at hlen
      | cons v2 rest2 => rfl
  · intro r
    rw [hnone]
    show (Notion.evalF df r && true) = Notion.evalF df r
    exact Bool.and_true _
  · intro r
    show (Notion.evalF df r && true) = Notion.evalF df r
    exact Bool.and_true _

/-- Witness for C6: both not-done shapes at concrete inputs — a singleton
set yields one `does_not_equal`, a two-element set yields an OR of two. -/
theorem C6_buildFilter_shape_witness :
    Notion.buildFilter (some "Done") ["Done"] (Notion.NFilter.dateBefore "Due" 0)
      = Notion.NFilter.andF [Notion.NFilter.dateBefore "Due" 0,
          Notion.NFilter.statusNe "Done" "Done"]
    ∧ Notion.buildFilter (some "Done") ["Done", "Archived"]
        (Notion.NFilter.dateBefore "Due" 0)
      = Notion.NFilter.andF [Notion.NFilter.dateBefore "Due" 0,
          Notion.NFilter.orF [Notion.NFilter.statusNe "Done" "Done",
            Notion.NFilter.statusNe "Done" "Archived"]] :=
  ⟨(C6_buildFilter_shape "Done" ["Done"] (Notion.NFilter.dateBefore "Due" 0)).1
      "Done" rfl,
   (C6_buildFilter_shape "Done" ["Done", "Archived"]
      (Notion.NFilter.dateBefore "Due" 0)).2.1 (by decide)⟩

/-- C7: at most one related-record lookup per record (only the head of the
relation array reaches the oracle, further entries are ignored); any lookup
failure — fetch failure or a related record with no title-typed field —
leaves the area unresolved (`none`); and the batch conversion is total, so
a failed lookup for one record never prevents the other records from being
processed. -/
theorem C7_relation_resolution (lk : String → Option Notion.NPage)
    (props : List (String × Notion.NProp)) :
    ((Notion.resolveAreaL lk props).2.length ≤ 1)
    ∧ (∀ rid rest, Notion.findAreaRel props = some (rid :: rest) →
        Notion.resolveAreaL lk props = (Notion.areaFromRelated (lk rid), [rid]))
    ∧ (∀ rid rest, Notion.findAreaRel props = some (rid :: rest) → lk rid = none →
        (Notion.resolveAreaL lk props).1 = none)
    ∧ (∀ rid rest rp, Notion.findAreaRel props = some (rid :: rest) →
        lk rid = some rp → Notion.findTitleProp rp.props = none →
        (Notion.resolveAreaL lk props).1 = none)
    ∧ (∀ (dp : String) (sp : Option String) (dvs : List String)
        (pages : List Notion.NPage),
        (pages.map (Notion.pageToTask lk dp sp dvs)).length = pages.length
        ∧ ∀ p ∈ pages, Notion.pageToTask lk dp sp dvs p
            ∈ pages.map (Notion.pageToTask lk dp sp dvs)) := by
  refine ⟨?_, ?_, ?_, ?_, ?_⟩
  · unfold Notion.resolveAreaL
    cases h : Notion.findAreaRel props with
    | none => simp
    | some ids =>
      cases ids with
      | nil => simp
      | cons rid rest => simp
  · intro rid rest h
    simp [Notion.resolveAreaL, h]
  · intro rid rest h hlk
    simp [Notion.resolveAreaL, h, hlk, Notion.areaFromRelated]
  · intro rid rest rp h hlk htitle
    simp [Notion.resolveAreaL, h, hlk, Notion.areaFromRelated, htitle]
  · intro dp sp dvs pages
    exact ⟨List.length_map _ _, fun p hp => List.mem_map_of_mem _ hp⟩

/-- Witness for C7: a page whose `Area` relation holds two ids, under an
oracle that fails every lookup — only `r1` is fetched and the area stays
unresolved. -/
theorem C7_relation_resolution_witness :
    Notion.resolveAreaL (fun _ => none) Examples.areaPage.props
      = (Notion.areaFromRelated none, ["r1"]) :=
  (C7_relation_resolution (fun _ => none) Examples.areaPage.props).2.1
    "r1" ["r2"] (by decide)

/-- C9: the resolved due-date field is the first candidate of
`["Due", "Due date", "Due Date", "Date"]` whose declared type is `date`;
when no candidate matches, the fixed default `Due` is returned (whether or
not the schema contains it), and resolution is a total function — it cannot
raise. -/
theorem C9_due_field_resolution (schema : List (String × String)) :
    ((Notion.dueCandidates.filter
        (fun c => Notion.schemaType c schema == some "date")) = [] →
      Notion.resolveDueField schema = "Due")
    ∧ (∀ c, (Notion.dueCandidates.filter
        (fun c => Notion.schemaType c schema == some "date")).head? = some c →
      Notion.resolveDueField schema = c
      ∧ Notion.schemaType c schema = some "date"
      ∧ c ∈ Notion.dueCandidates) := by
  constructor
  · intro hnil
    unfold Notion.resolveDueField
    rw [Notion.find?_eq_head?_filter, hnil]
    rfl
  · intro c hc
    have hfind : Notion.dueCandidates.find?
        (fun c => Notion.schemaType c schema == some "date") = some c := by
      rw [Notion.find?_eq_head?_filter, hc]
    refine ⟨?_, ?_, ?_⟩
    · unfold Notion.resolveDueField
      rw [hfind]
    · have := List.find?_some hfind
      simpa using this
    · exact List.mem_of_find?_eq_some hfind

/-- Witness for C9 at spec scenario D: a schema with no date-typed candidate
resolves the due field to the default `Due`. -/
theorem C9_due_field_resolution_witness :
    Notion.resolveDueField Examples.noDateSchema = "Due" :=
  (C9_due_field_resolution Examples.noDateSchema).1 (by decide)

/-- C8: re-running the ranking stage (allow-list filter with empty fallback,
stable sort by `internal_date` descending, truncation) on its own output with
the same allow-list and limit returns the same list. -/
theorem C8_rank_idempotent (senders : List String) (limit : Nat)
    (msgs : List Gmail.Msg) :
    Gmail.rankMessages senders limit (Gmail.rankMessages senders limit msgs)
      = Gmail.rankMessages senders limit msgs := by
  conv_lhs => rw [Gmail.rankMessages]
  rw [Gmail.chooseImportant_rank_fixed,
    List.mergeSort_of_sorted (Gmail.rank_pairwise senders limit msgs)]
  exact List.take_of_length_le (by
    simp only [Gmail.rankMessages]
    exact List.length_take_le _ _)

namespace FromHeader

theorem takeWhile_and (p q : α → Bool) (l : List α) :
    (l.takeWhile q).takeWhile p = l.takeWhile (fun a => q a && p a) := by
  induction l with
  | nil => rfl
  | cons a rest ih =>
    by_cases hq : q a
    · by_cases hp : p a
      · simp [List.takeWhile_cons, hq, hp, ih]
      · simp [List.takeWhile_cons, hq, hp]
    · simp [List.takeWhile_cons, hq]

end FromHeader

/-- C10 (amended: when both angle brackets occur, `from_email` is the
trimmed text after the first `<` up to the next `<` or `>` — not up to the
next `>` — because the `split`-based extraction also stops at a second `<`):
with both brackets present, `from_name` is the trimmed text before the first
`<` with one leading and one trailing double quote stripped; each field
becomes absent when its extracted text is empty; without both brackets the
entire header is the `from_email`, absent when the header is empty. -/
theorem C10_from_header_parsing (s : List Char) :
    FromHeader.parseFrom s =
      if s.contains '<' && s.contains '>' then
        (FromHeader.omitEmpty (FromHeader.specName s),
         FromHeader.omitEmpty (FromHeader.amendedEmail s))
      else
        (none, FromHeader.omitEmpty s) := by
  simp only [FromHeader.parseFrom]
  by_cases h : s.contains '<' && s.contains '>'
  · rw [if_pos h, if_pos h]
    unfold FromHeader.amendedEmail FromHeader.specName FromHeader.secondLtSeg
      FromHeader.beforeLt
    rw [FromHeader.takeWhile_and]
  · rw [if_neg h, if_neg h]

/-- C10 counterexample: on the header `x<a<b> c` the code extracts
`from_email = "a"` (the `split`-based scan stops at the second `<`), while
the claim's reading — the trimmed text between the first `<` and the next
`>` — is `a<b`; the two disagree at this input. -/
theorem C10_counterexample :
    (FromHeader.parseFrom Examples.trickyHeader).2 = some ['a']
    ∧ FromHeader.specEmailBetween Examples.trickyHeader = ['a', '<', 'b']
    ∧ FromHeader.omitEmpty (FromHeader.specEmailBetween Examples.trickyHeader)
        ≠ (FromHeader.parseFrom Examples.trickyHeader).2 := by
  decide

end MorningBrief
